import Mathlib

/-!
Shallow embedding of `src/Src/ADC.c` (lhr-solar/BPS-Temperature): an ADS7953
16-channel ADC driver with per-channel bounded averaging queues.

Machine integers are modelled as `Nat` (with explicit `% 2^w` where the C
types matter) and `Int` for C `int` fields.  The external collaborators
(SPI transfer results, the millisecond clock, GPIO) are modelled as explicit
inputs to each operation; their side effects on hardware are outside the
state.  Array accesses `data[j]` are modelled through `qidx`, which reduces
the C index expression modulo the array length (on every reachable state the
C index is already in range, so `qidx` agrees with the source).
-/

/-- `#define QUEUE_SIZE 4` -/
def QUEUE_SIZE : Nat := 4

/-- `#define ADS7953_NUM_CHANNELS 16` -/
def ADS7953_NUM_CHANNELS : Nat := 16

/-- Modulus of a C `uint32_t`. -/
def UINT32_MOD : Nat := 4294967296

/-- Modulus of a C `uint16_t`. -/
def UINT16_MOD : Nat := 65536

/-- Circular queue structure: `uint16_t data[QUEUE_SIZE]; int front; int rear; int size;` -/
structure Queue where
  data : Fin 4 → Nat
  front : Int
  rear : Int
  size : Int

/-- Array index for `data[j]`: the C index expression reduced into `Fin 4`.
On reachable states the C index is already in `[0,3]` and this is the identity. -/
def qidx (j : Int) : Fin 4 :=
  ⟨(j.tmod 4).toNat % 4, Nat.mod_lt _ (by decide)⟩

/-- `Queue_Init`: `front = 0; rear = -1; size = 0` (the data array is untouched). -/
def Queue_Init (q : Queue) : Queue :=
  { q with front := 0, rear := -1, size := 0 }

/-- `Queue_Dequeue`: returns the updated queue and the dequeued value
(0 when empty). -/
def Queue_Dequeue (q : Queue) : Queue × Nat :=
  if q.size = 0 then (q, 0)
  else ({ q with front := (q.front + 1).tmod 4, size := q.size - 1 },
        q.data (qidx q.front))

/-- `Queue_Enqueue`: evicts the oldest element when full, then appends.
The `uint16_t value` parameter truncates its argument modulo 2^16. -/
def Queue_Enqueue (q : Queue) (value : Nat) : Queue :=
  let v := value % UINT16_MOD
  let q1 := if q.size = QUEUE_SIZE then (Queue_Dequeue q).1 else q
  let r := (q1.rear + 1).tmod 4
  { q1 with rear := r,
            data := fun i => if i = qidx r then v else q1.data i,
            size := q1.size + 1 }

/-- The summation loop of `Queue_Average`: `uint32_t sum` accumulated over
`data[(front + i) % QUEUE_SIZE]` for `i = 0 .. n-1`, with `uint32_t` wraparound. -/
def avgSum (q : Queue) : Nat → Nat
  | 0 => 0
  | n + 1 => (avgSum q n + q.data (qidx (q.front + (n : Int)))) % UINT32_MOD

/-- `Queue_Average`: 0 when empty, else the truncated mean of the held
elements, computed in a `uint32_t` accumulator and cast to `uint16_t`. -/
def Queue_Average (q : Queue) : Nat :=
  if q.size = 0 then 0
  else (avgSum q q.size.toNat / q.size.toNat) % UINT16_MOD

/-- `ADS7953_SampleSet`: per-channel queues, per-channel averages, timestamp. -/
structure ADS7953_SampleSet where
  channel_queues : Fin 16 → Queue
  channel_averages : Fin 16 → Nat
  timestamp : Nat

/-- The driver's global state: `g_sample_set`, `g_sampling_complete`,
`g_start_time`, and the `static uint8_t current_channel` local of
`ADS7953_ProcessSamples` (function-static, hence part of the state). -/
structure DriverState where
  g_sample_set : ADS7953_SampleSet
  g_sampling_complete : Bool
  g_start_time : Nat
  current_channel : Nat

/-- `uint32_t` subtraction `now - start` (wraparound difference). -/
def elapsed32 (start now : Nat) : Nat :=
  (now % UINT32_MOD + UINT32_MOD - start % UINT32_MOD) % UINT32_MOD

/-- Queue state after `memset` + `Queue_Init` in `ADS7953_Init`. -/
def zeroQueue : Queue :=
  { data := fun _ => 0, front := 0, rear := -1, size := 0 }

/-- Sample set after `ADS7953_Init`: everything zeroed, queues initialized. -/
def zeroSampleSet : ADS7953_SampleSet :=
  { channel_queues := fun _ => zeroQueue
    channel_averages := fun _ => 0
    timestamp := 0 }

/-- `ADS7953_StartSampling`: clears the completion flag and records the
current clock as session start.  The SPI writes have no effect on the
modelled state; in particular, `current_channel` is NOT touched. -/
def ADS7953_StartSampling (s : DriverState) (now : Nat) : DriverState :=
  { s with g_sampling_complete := false, g_start_time := now % UINT32_MOD }

/-- `ADS7953_IsSamplingComplete`: sets the flag once 60000 ms have elapsed
since session start; returns the updated state and the returned Bool. -/
def ADS7953_IsSamplingComplete (s : DriverState) (now : Nat) : DriverState × Bool :=
  if s.g_sampling_complete then (s, true)
  else if 60000 ≤ elapsed32 s.g_start_time now then
    ({ s with g_sampling_complete := true }, true)
  else (s, false)

/-- `ADS7953_GetResults`: `memcpy`s the sample set into `*results` only when
the completion flag is set; returns the (unchanged) driver state and the
contents of the caller's destination after the call. -/
def ADS7953_GetResults (s : DriverState) (results : ADS7953_SampleSet) :
    DriverState × ADS7953_SampleSet :=
  if s.g_sampling_complete then (s, s.g_sample_set) else (s, results)

/-- Channel array index for `channel_queues[current_channel]`. -/
def chIdx (c : Nat) : Fin 16 :=
  ⟨c % 16, Nat.mod_lt _ (by decide)⟩

/-- `ADS7953_ProcessSamples`: one work step.  `result` is the value returned
by `SPI_Transfer16` (a `uint16_t`), `t1` the clock read for the wraparound
timestamp, `t2` the clock read inside the final `ADS7953_IsSamplingComplete`
call.  When the completion flag is set, the body is skipped. -/
def ADS7953_ProcessSamples (s : DriverState) (result t1 t2 : Nat) : DriverState :=
  if s.g_sampling_complete then s
  else
    let masked := (result % UINT16_MOD) &&& 0x0FFF
    let ch := chIdx s.current_channel
    let q := Queue_Enqueue (s.g_sample_set.channel_queues ch) masked
    let queues := fun i => if i = ch then q else s.g_sample_set.channel_queues i
    let avgs := fun i => if i = ch then Queue_Average q
                         else s.g_sample_set.channel_averages i
    let next := (s.current_channel + 1) % 16
    let ts := if next = 0 then elapsed32 s.g_start_time t1
              else s.g_sample_set.timestamp
    let s1 : DriverState :=
      { s with
        g_sample_set := { channel_queues := queues
                          channel_averages := avgs
                          timestamp := ts }
        current_channel := next }
    (ADS7953_IsSamplingComplete s1 t2).1

/-- Iterated `ADS7953_ProcessSamples`: `f n = (result, t1, t2)` of the n-th call. -/
def stepsN (s : DriverState) (f : Nat → Nat × Nat × Nat) : Nat → DriverState
  | 0 => s
  | n + 1 => ADS7953_ProcessSamples (stepsN s f n) (f n).1 (f n).2.1 (f n).2.2

/-- Fold `Queue_Enqueue` over a list of values. -/
def enqueueAll (q : Queue) (vs : List Nat) : Queue :=
  vs.foldl Queue_Enqueue q

/-- Abstraction: the list of currently held elements, oldest first. -/
def queueToList (q : Queue) : List Nat :=
  (List.range q.size.toNat).map (fun i => q.data (qidx (q.front + Int.ofNat i)))

/-- Well-formedness of a queue as maintained by `Queue_Init`/`Queue_Enqueue`:
in-range pointers, bounded size, rear one slot before `front + size`
(modulo 4), and every held element a `uint16_t` value. -/
structure QueueWF (q : Queue) : Prop where
  front_lb : 0 ≤ q.front
  front_ub : q.front < 4
  size_lb : 0 ≤ q.size
  size_ub : q.size ≤ 4
  rear_lb : -1 ≤ q.rear
  rear_ub : q.rear < 4
  rear_eq : (q.rear + 1).tmod 4 = (q.front + q.size).tmod 4
  data_lt : ∀ x ∈ queueToList q, x < UINT16_MOD

/-- Functional model of one enqueue on the abstract list. -/
def modelStep (l : List Nat) (v : Nat) : List Nat :=
  (if l.length = 4 then l.drop 1 else l) ++ [v % UINT16_MOD]

/-- The pure state-update part of `ADS7953_ProcessSamples` (everything the
body does before the trailing `ADS7953_IsSamplingComplete` call). -/
def stepCore (s : DriverState) (result t1 : Nat) : DriverState :=
  let masked := (result % UINT16_MOD) &&& 0x0FFF
  let ch := chIdx s.current_channel
  let q := Queue_Enqueue (s.g_sample_set.channel_queues ch) masked
  { s with
    g_sample_set :=
      { channel_queues := fun i => if i = ch then q else s.g_sample_set.channel_queues i
        channel_averages := fun i => if i = ch then Queue_Average q
                                     else s.g_sample_set.channel_averages i
        timestamp := if (s.current_channel + 1) % 16 = 0
                     then elapsed32 s.g_start_time t1
                     else s.g_sample_set.timestamp }
    current_channel := (s.current_channel + 1) % 16 }

/-- A sample set distinguishable from `zeroSampleSet` (timestamp 42). -/
def demoSet : ADS7953_SampleSet :=
  { zeroSampleSet with timestamp := 42 }

/-- Driver state mid-session: flag clear, session started at t = 0. -/
def sNotReady : DriverState :=
  { g_sample_set := zeroSampleSet
    g_sampling_complete := false
    g_start_time := 0
    current_channel := 0 }

/-- Driver state after a completed session holding `demoSet`. -/
def sReady : DriverState :=
  { g_sample_set := demoSet
    g_sampling_complete := true
    g_start_time := 0
    current_channel := 0 }

/-- Driver state where a previous session hit its deadline mid-cycle:
completion flag set while the round-robin index sits at channel 5. -/
def sMid : DriverState :=
  { g_sample_set := zeroSampleSet
    g_sampling_complete := true
    g_start_time := 0
    current_channel := 5 }

lemma qidx_natCast (n : Nat) : qidx (n : Int) = ⟨n % 4, Nat.mod_lt _ (by decide)⟩ := by
  unfold qidx
  congr 1
  rw [Int.tmod_eq_emod (by positivity) (by norm_num)]
  omega

lemma queueToList_length (q : Queue) : (queueToList q).length = q.size.toNat := by
  simp [queueToList]

lemma queueToList_eq (q : Queue) (h : 0 ≤ q.front) :
    queueToList q = (List.range q.size.toNat).map
      (fun i => q.data ⟨(q.front.toNat + i) % 4, Nat.mod_lt _ (by decide)⟩) := by
  unfold queueToList
  apply List.map_congr_left
  intro i _
  congr 1
  have h2 : q.front + Int.ofNat i = ((q.front.toNat + i : Nat) : Int) := by
    simp only [Int.ofNat_eq_natCast]
    omega
  rw [h2, qidx_natCast]

lemma Queue_Enqueue_full (q : Queue) (hs : q.size = 4) (v : Nat) :
    Queue_Enqueue q v =
      { data := fun i => if i = qidx ((q.rear + 1).tmod 4) then v % UINT16_MOD else q.data i
        front := (q.front + 1).tmod 4
        rear := (q.rear + 1).tmod 4
        size := 4 } := by
  simp [Queue_Enqueue, Queue_Dequeue, hs, QUEUE_SIZE]

lemma Queue_Enqueue_notfull (q : Queue) (hs : q.size ≠ 4) (v : Nat) :
    Queue_Enqueue q v =
      { data := fun i => if i = qidx ((q.rear + 1).tmod 4) then v % UINT16_MOD else q.data i
        front := q.front
        rear := (q.rear + 1).tmod 4
        size := q.size + 1 } := by
  simp [Queue_Enqueue, hs, QUEUE_SIZE]

lemma rear_slot (q : Queue) (h : QueueWF q) :
    (q.rear + 1).tmod 4 = (((q.front.toNat + q.size.toNat) % 4 : Nat) : Int) := by
  rw [h.rear_eq]
  have h2 : q.front + q.size = ((q.front.toNat + q.size.toNat : Nat) : Int) := by
    have := h.front_lb
    have := h.size_lb
    omega
  rw [h2]
  rw [Int.tmod_eq_emod (by positivity) (by norm_num)]
  omega

lemma tmod4_toNat (a : Int) (ha : 0 ≤ a) : a.tmod 4 = ((a.toNat % 4 : Nat) : Int) := by
  rw [Int.tmod_eq_emod ha (by norm_num)]
  omega

theorem Queue_Enqueue_sim (q : Queue) (h : QueueWF q) (v : Nat) :
    queueToList (Queue_Enqueue q v) = modelStep (queueToList q) v := by
  have hfl := h.front_lb
  have hfu := h.front_ub
  have hsl := h.size_lb
  have hsu := h.size_ub
  by_cases hs : q.size = 4
  · -- full: evict oldest, size stays 4
    rw [Queue_Enqueue_full q hs v, rear_slot q h]
    have hfront : (q.front + 1).tmod 4 = (((q.front.toNat + 1) % 4 : Nat) : Int) := by
      rw [show q.front + 1 = ((q.front.toNat + 1 : Nat) : Int) by omega,
          tmod4_toNat _ (by positivity)]
      simp only [Int.toNat_natCast]
    rw [hfront]
    rw [queueToList_eq _ (by positivity),
        queueToList_eq q h.front_lb]
    simp only [modelStep, qidx_natCast, List.length_map, List.length_range,
      Int.ofNat_eq_natCast, Int.toNat_natCast]
    set F := q.front.toNat with hFdef
    have hS : q.size.toNat = 4 := by rw [hs]; rfl
    rw [hS]
    rw [show ((4:Int)).toNat = 4 from rfl, if_pos rfl]
    rw [show List.range 4 = [0,1,2,3] from rfl]
    simp only [List.map_cons, List.map_nil, List.drop_succ_cons, List.drop_zero,
      List.cons_append, List.nil_append, List.cons.injEq, and_true]
    have hFm : F % 4 = F := Nat.mod_eq_of_lt (by omega)
    refine ⟨?_, ?_, ?_, ?_⟩
    · rw [if_neg (by simp only [Fin.mk.injEq]; omega)]
      congr 1
      simp only [Fin.mk.injEq]
      omega
    · rw [if_neg (by simp only [Fin.mk.injEq]; omega)]
      congr 1
      simp only [Fin.mk.injEq]
      omega
    · rw [if_neg (by simp only [Fin.mk.injEq]; omega)]
      congr 1
      simp only [Fin.mk.injEq]
      omega
    · rw [if_pos (by simp only [Fin.mk.injEq]; omega)]
  · -- not full: append
    rw [Queue_Enqueue_notfull q hs v, rear_slot q h]
    rw [queueToList_eq _ (by simpa using h.front_lb),
        queueToList_eq q h.front_lb]
    simp only [modelStep, qidx_natCast, List.length_map, List.length_range,
      Int.ofNat_eq_natCast, Int.toNat_natCast]
    set F := q.front.toNat with hFdef
    set S := q.size.toNat with hSdef
    have hS4 : S < 4 := by omega
    have hsize1 : (q.size + 1).toNat = S + 1 := by omega
    rw [hsize1]
    rw [if_neg (by omega)]
    rw [List.range_succ, List.map_append, List.map_cons, List.map_nil]
    congr 1
    · apply List.map_congr_left
      intro i hi
      have hiS : i < S := List.mem_range.mp hi
      rw [if_neg (by simp only [Fin.mk.injEq]; omega)]
    · simp only [List.cons.injEq, and_true]
      rw [if_pos (by simp only [Fin.mk.injEq]; omega)]

theorem Queue_Enqueue_WF (q : Queue) (h : QueueWF q) (v : Nat) :
    QueueWF (Queue_Enqueue q v) := by
  have hfl := h.front_lb
  have hfu := h.front_ub
  have hsl := h.size_lb
  have hsu := h.size_ub
  have hdata : ∀ x ∈ queueToList (Queue_Enqueue q v), x < UINT16_MOD := by
    rw [Queue_Enqueue_sim q h v]
    intro x hx
    simp only [modelStep, List.mem_append, List.mem_singleton] at hx
    rcases hx with hx | hx
    · refine h.data_lt x ?_
      split at hx
      · exact List.mem_of_mem_drop hx
      · exact hx
    · subst hx
      exact Nat.mod_lt _ (by norm_num [UINT16_MOD])
  by_cases hs : q.size = 4
  · rw [Queue_Enqueue_full q hs v] at hdata ⊢
    have hfront : (q.front + 1).tmod 4 = (((q.front.toNat + 1) % 4 : Nat) : Int) := by
      rw [show q.front + 1 = ((q.front.toNat + 1 : Nat) : Int) by omega,
          tmod4_toNat _ (by positivity)]
      simp only [Int.toNat_natCast]
    have hrear : (q.rear + 1).tmod 4 = (((q.front.toNat + q.size.toNat) % 4 : Nat) : Int) :=
      rear_slot q h
    refine ⟨?_, ?_, ?_, ?_, ?_, ?_, ?_, hdata⟩
    · show (0:Int) ≤ (q.front + 1).tmod 4
      rw [hfront]; positivity
    · show (q.front + 1).tmod 4 < 4
      rw [hfront]; exact_mod_cast Nat.mod_lt _ (by norm_num)
    · show (0:Int) ≤ 4; norm_num
    · show (4:Int) ≤ 4; norm_num
    · show (-1:Int) ≤ (q.rear + 1).tmod 4
      rw [hrear]; omega
    · show (q.rear + 1).tmod 4 < 4
      rw [hrear]; exact_mod_cast Nat.mod_lt _ (by norm_num)
    · show ((q.rear + 1).tmod 4 + 1).tmod 4 = ((q.front + 1).tmod 4 + 4).tmod 4
      rw [hrear, hfront]
      rw [Int.tmod_eq_emod (by positivity) (by norm_num),
          Int.tmod_eq_emod (by positivity) (by norm_num)]
      omega
  · rw [Queue_Enqueue_notfull q hs v] at hdata ⊢
    have hrear : (q.rear + 1).tmod 4 = (((q.front.toNat + q.size.toNat) % 4 : Nat) : Int) :=
      rear_slot q h
    refine ⟨hfl, hfu, ?_, ?_, ?_, ?_, ?_, hdata⟩
    · show (0:Int) ≤ q.size + 1; omega
    · show q.size + 1 ≤ 4; omega
    · show (-1:Int) ≤ (q.rear + 1).tmod 4
      rw [hrear]; omega
    · show (q.rear + 1).tmod 4 < 4
      rw [hrear]; exact_mod_cast Nat.mod_lt _ (by norm_num)
    · show ((q.rear + 1).tmod 4 + 1).tmod 4 = (q.front + (q.size + 1)).tmod 4
      rw [hrear]
      rw [Int.tmod_eq_emod (by positivity) (by norm_num),
          Int.tmod_eq_emod (by omega) (by norm_num)]
      omega

lemma queueToList_getElem (q : Queue) (n : Nat) (hn : n < (queueToList q).length) :
    (queueToList q).get ⟨n, hn⟩ = q.data (qidx (q.front + (n : Int))) := by
  simp [queueToList]

lemma avgSum_eq (q : Queue) (h : QueueWF q) :
    ∀ n, n ≤ q.size.toNat →
      avgSum q n = ((queueToList q).take n).sum ∧
      ((queueToList q).take n).sum ≤ n * 65535 := by
  intro n
  induction n with
  | zero => intro _; simp [avgSum]
  | succ n ih =>
    intro hn
    have hn' : n < (queueToList q).length := by
      rw [queueToList_length]; omega
    obtain ⟨ih1, ih2⟩ := ih (by omega)
    have helem : q.data (qidx (q.front + (n : Int))) = (queueToList q)[n] := by
      rw [← queueToList_getElem q n hn']
      simp [List.get_eq_getElem]
    have hlt : (queueToList q)[n] < 65536 :=
      h.data_lt _ (List.getElem_mem hn')
    have htake : ((queueToList q).take (n+1)).sum
        = ((queueToList q).take n).sum + (queueToList q)[n] := by
      rw [List.sum_take_succ _ _ hn']
    constructor
    · show (avgSum q n + q.data (qidx (q.front + (n : Int)))) % UINT32_MOD = _
      rw [ih1, helem, htake]
      apply Nat.mod_eq_of_lt
      have : n * 65535 + 65536 < UINT32_MOD := by
        unfold UINT32_MOD
        have hn4 : n ≤ 4 := by
          have := h.size_ub
          omega
        nlinarith
      omega
    · rw [htake]
      omega

theorem Queue_Average_eq (q : Queue) (h : QueueWF q) :
    Queue_Average q = if q.size = 0 then 0 else (queueToList q).sum / q.size.toNat := by
  unfold Queue_Average
  by_cases hz : q.size = 0
  · simp [hz]
  · rw [if_neg hz, if_neg hz]
    obtain ⟨h1, h2⟩ := avgSum_eq q h q.size.toNat le_rfl
    have hlen : q.size.toNat = (queueToList q).length := (queueToList_length q).symm
    rw [hlen, List.take_length] at h1 h2
    rw [hlen, h1]
    apply Nat.mod_eq_of_lt
    have hS : 1 ≤ q.size.toNat := by
      have := h.size_lb
      omega
    have hb : (queueToList q).sum / (queueToList q).length ≤ 65535 := by
      calc (queueToList q).sum / (queueToList q).length
          ≤ (queueToList q).length * 65535 / (queueToList q).length := by
            exact Nat.div_le_div_right h2
        _ ≤ 65535 := by
            rcases Nat.eq_zero_or_pos (queueToList q).length with hc | hc
            · simp [hc]
            · rw [Nat.mul_div_cancel_left _ hc]
    unfold UINT16_MOD
    omega

lemma Queue_Init_toList (q : Queue) : queueToList (Queue_Init q) = [] := by
  simp [queueToList, Queue_Init]

lemma Queue_Init_WF (q : Queue) : QueueWF (Queue_Init q) := by
  refine ⟨?_, ?_, ?_, ?_, ?_, ?_, ?_, ?_⟩ <;>
    simp [Queue_Init, queueToList]

lemma enqueueAll_WF_toList (vs : List Nat) :
    ∀ q : Queue, QueueWF q →
      QueueWF (enqueueAll q vs) ∧
      queueToList (enqueueAll q vs) = vs.foldl modelStep (queueToList q) := by
  induction vs with
  | nil => intro q h; exact ⟨h, rfl⟩
  | cons v vs ih =>
    intro q h
    have h1 := Queue_Enqueue_WF q h v
    have h2 := Queue_Enqueue_sim q h v
    obtain ⟨ih1, ih2⟩ := ih (Queue_Enqueue q v) h1
    refine ⟨ih1, ?_⟩
    show queueToList (enqueueAll (Queue_Enqueue q v) vs) = _
    rw [ih2, h2]
    rfl

lemma foldl_modelStep (vs : List Nat) :
    ∀ acc : List Nat, acc.length ≤ 4 →
      vs.foldl modelStep acc =
        (acc ++ vs.map (· % UINT16_MOD)).drop (acc.length + vs.length - 4) := by
  induction vs with
  | nil =>
    intro acc hacc
    simp [Nat.sub_eq_zero_of_le hacc]
  | cons v vs ih =>
    intro acc hacc
    have hlen : (modelStep acc v).length ≤ 4 := by
      unfold modelStep
      by_cases h4 : acc.length = 4
      · simp [h4]
      · simp [h4]; omega
    show vs.foldl modelStep (modelStep acc v) = _
    rw [ih _ hlen]
    by_cases h4 : acc.length = 4
    · obtain ⟨a, acc', rfl⟩ : ∃ a acc', acc = a :: acc' := by
        cases acc with
        | nil => simp at h4
        | cons a acc' => exact ⟨a, acc', rfl⟩
      have h3 : acc'.length = 3 := by simpa using h4
      have eL : modelStep (a :: acc') v = acc' ++ [v % UINT16_MOD] := by
        simp [modelStep, h4]
      rw [eL]
      have eidx1 : (acc' ++ [v % UINT16_MOD]).length + vs.length - 4 = vs.length := by
        simp [h3]
      have eidx2 : (a :: acc').length + (v :: vs).length - 4 = vs.length + 1 := by
        simp only [List.length_cons, h3]
        omega
      rw [eidx1, eidx2, List.map_cons]
      rw [show (a :: acc') ++ v % UINT16_MOD :: vs.map (· % UINT16_MOD)
            = a :: (acc' ++ v % UINT16_MOD :: vs.map (· % UINT16_MOD)) from rfl]
      rw [List.drop_succ_cons, List.append_assoc, List.singleton_append]
    · have eL : modelStep acc v = acc ++ [v % UINT16_MOD] := by
        simp [modelStep, h4]
      rw [eL, List.map_cons]
      congr 1
      · simp only [List.length_append, List.length_cons, List.length_nil]
        omega
      · rw [List.append_assoc, List.singleton_append]

lemma ProcessSamples_of_complete (s : DriverState) (r t1 t2 : Nat)
    (hc : s.g_sampling_complete = true) :
    ADS7953_ProcessSamples s r t1 t2 = s := by
  simp [ADS7953_ProcessSamples, hc]

lemma IsSamplingComplete_of_complete (s : DriverState) (now : Nat)
    (hc : s.g_sampling_complete = true) :
    ADS7953_IsSamplingComplete s now = (s, true) := by
  simp [ADS7953_IsSamplingComplete, hc]

lemma ProcessSamples_eq (s : DriverState) (r t1 t2 : Nat)
    (hc : s.g_sampling_complete = false) :
    ADS7953_ProcessSamples s r t1 t2 =
      if 60000 ≤ elapsed32 s.g_start_time t2
      then { stepCore s r t1 with g_sampling_complete := true }
      else stepCore s r t1 := by
  simp only [ADS7953_ProcessSamples, hc, Bool.false_eq_true, if_false,
    ADS7953_IsSamplingComplete, stepCore]
  split <;> rfl

lemma stepsN_invariant (s : DriverState) (f : Nat → Nat × Nat × Nat)
    (h0 : s.current_channel = 0) (hc : s.g_sampling_complete = false)
    (hw : ∀ n, n < 16 → elapsed32 s.g_start_time (f n).2.2 < 60000) :
    ∀ k, k ≤ 16 →
      (stepsN s f k).current_channel = k % 16 ∧
      (stepsN s f k).g_sampling_complete = false ∧
      (stepsN s f k).g_start_time = s.g_start_time ∧
      (∀ j : Fin 16, (stepsN s f k).g_sample_set.channel_queues j =
         if (j : Nat) < k
         then Queue_Enqueue (s.g_sample_set.channel_queues j)
                (((f (j : Nat)).1 % UINT16_MOD) &&& 0x0FFF)
         else s.g_sample_set.channel_queues j) ∧
      (stepsN s f k).g_sample_set.timestamp =
         (if k = 16 then elapsed32 s.g_start_time (f 15).2.1
          else s.g_sample_set.timestamp) := by
  intro k
  induction k with
  | zero =>
    intro _
    refine ⟨by simpa using h0, hc, rfl, ?_, by simp [stepsN]⟩
    intro j
    simp [stepsN]
  | succ k ih =>
    intro hk
    obtain ⟨ih1, ih2, ih3, ih4, ih5⟩ := ih (by omega)
    have hk16 : k < 16 := by omega
    have hkm : k % 16 = k := Nat.mod_eq_of_lt hk16
    have hstep : stepsN s f (k+1)
        = ADS7953_ProcessSamples (stepsN s f k) (f k).1 (f k).2.1 (f k).2.2 := rfl
    have hwin : ¬ (60000 ≤ elapsed32 (stepsN s f k).g_start_time (f k).2.2) := by
      rw [ih3]
      exact not_le.mpr (hw k hk16)
    rw [hstep, ProcessSamples_eq _ _ _ _ ih2, if_neg hwin]
    have hch : chIdx (stepsN s f k).current_channel = ⟨k, hk16⟩ := by
      rw [ih1, hkm]
      unfold chIdx
      exact Fin.ext (Nat.mod_eq_of_lt hk16)
    refine ⟨?_, ih2, ih3, ?_, ?_⟩
    · show ((stepsN s f k).current_channel + 1) % 16 = (k+1) % 16
      rw [ih1, hkm]
    · intro j
      show (if j = chIdx (stepsN s f k).current_channel
            then Queue_Enqueue
                   ((stepsN s f k).g_sample_set.channel_queues
                     (chIdx (stepsN s f k).current_channel))
                   (((f k).1 % UINT16_MOD) &&& 0x0FFF)
            else (stepsN s f k).g_sample_set.channel_queues j) = _
      rw [hch]
      by_cases hj : j = (⟨k, hk16⟩ : Fin 16)
      · subst hj
        rw [if_pos rfl, ih4,
            if_neg (by simp only [Fin.val_mk]; omega),
            if_pos (by simp only [Fin.val_mk]; omega)]
      · have hjk : (j : Nat) ≠ k := by
          intro hh
          exact hj (Fin.ext hh)
        rw [if_neg hj, ih4]
        by_cases hlt : (j : Nat) < k
        · rw [if_pos hlt, if_pos (by omega)]
        · rw [if_neg hlt, if_neg (by omega)]
    · show (if ((stepsN s f k).current_channel + 1) % 16 = 0
            then elapsed32 (stepsN s f k).g_start_time (f k).2.1
            else (stepsN s f k).g_sample_set.timestamp) = _
      rw [ih1, hkm, ih3, ih5]
      by_cases h15 : k = 15
      · subst h15
        norm_num
      · rw [if_neg (by omega), if_neg (by omega), if_neg (by omega)]

/-- C1: the claim says `ADS7953_StartSampling` resets the active channel
index to 0 so that the first `ADS7953_ProcessSamples` of a new session
records into channel 0.  The code does clear the completion flag and record
the session-start timestamp, but `current_channel` is a function-static
variable that `ADS7953_StartSampling` never touches: starting a new session
after a previous one ended mid-cycle (index 5), the first process step
records into channel 5 and leaves channel 0 untouched. -/
theorem C1_start_not_reset_channel_eval :
    (ADS7953_StartSampling sMid 100000).g_sampling_complete = false ∧
    (ADS7953_StartSampling sMid 100000).g_start_time = 100000 ∧
    (ADS7953_StartSampling sMid 100000).current_channel = 5 ∧
    queueToList ((ADS7953_ProcessSamples (ADS7953_StartSampling sMid 100000)
        7 100001 100001).g_sample_set.channel_queues (5 : Fin 16)) = [7] ∧
    queueToList ((ADS7953_ProcessSamples (ADS7953_StartSampling sMid 100000)
        7 100001 100001).g_sample_set.channel_queues (0 : Fin 16)) = [] := by
  refine ⟨rfl, rfl, rfl, ?_, ?_⟩ <;> decide

/-- C2 counterexample: the claim says the caller can detect "not ready"
through an explicit returned validity indicator.  `ADS7953_GetResults`
returns nothing: a not-ready call that leaves stale data in the destination
is indistinguishable, from the caller's side, from a ready call that wrote
those same values — no returned indicator exists. -/
theorem C2_no_indicator_counterexample :
    sReady.g_sampling_complete = true ∧
    sNotReady.g_sampling_complete = false ∧
    (ADS7953_GetResults sReady zeroSampleSet).2
      = (ADS7953_GetResults sNotReady demoSet).2 ∧
    (ADS7953_GetResults sNotReady demoSet).2 = demoSet :=
  ⟨rfl, rfl, rfl, rfl⟩

/-- C2 (amended): when a snapshot is requested before the session is
complete, no snapshot is written — the caller's destination is left exactly
as it was; the function provides no returned validity indicator, so the
condition is detectable only by separately polling the completion flag. -/
theorem C2_not_ready_no_write (s : DriverState) (d : ADS7953_SampleSet)
    (h : s.g_sampling_complete = false) :
    (ADS7953_GetResults s d).2 = d := by
  simp [ADS7953_GetResults, h]

/-- C2 witness: the amended theorem at a concrete not-ready state. -/
theorem C2_not_ready_no_write_witness :
    (ADS7953_GetResults sNotReady demoSet).2 = demoSet :=
  C2_not_ready_no_write sNotReady demoSet rfl

/-- C3: round-robin — starting from a non-complete state with active index 0,
over 16 consecutive process steps (none of which reaches the 60000 ms
deadline) every channel 0..15 receives exactly one enqueue, channel j from
the j-th call's transfer result (ascending order), the index is k before the
(k+1)-th call and wraps to 0 after the 16th, and the timestamp is updated
exactly once, at the 16th call. -/
theorem C3_round_robin (s : DriverState) (f : Nat → Nat × Nat × Nat)
    (h0 : s.current_channel = 0) (hc : s.g_sampling_complete = false)
    (hw : ∀ n, n < 16 → elapsed32 s.g_start_time (f n).2.2 < 60000) :
    (∀ j : Fin 16, (stepsN s f 16).g_sample_set.channel_queues j =
       Queue_Enqueue (s.g_sample_set.channel_queues j)
         (((f (j : Nat)).1 % UINT16_MOD) &&& 0x0FFF)) ∧
    (∀ k, k < 16 → (stepsN s f k).current_channel = k ∧
       (stepsN s f k).g_sample_set.timestamp = s.g_sample_set.timestamp) ∧
    (stepsN s f 16).g_sample_set.timestamp = elapsed32 s.g_start_time (f 15).2.1 ∧
    (stepsN s f 16).current_channel = 0 := by
  have h16 := stepsN_invariant s f h0 hc hw 16 le_rfl
  refine ⟨?_, ?_, ?_, ?_⟩
  · intro j
    rw [h16.2.2.2.1 j, if_pos j.isLt]
  · intro k hk
    have h := stepsN_invariant s f h0 hc hw k (by omega)
    exact ⟨by rw [h.1, Nat.mod_eq_of_lt hk], by rw [h.2.2.2.2, if_neg (by omega)]⟩
  · rw [h16.2.2.2.2, if_pos rfl]
  · rw [h16.1]

/-- C3 witness: the round-robin theorem at a fresh session with constant
inputs (result 7, clock 5). -/
theorem C3_round_robin_witness :
    (stepsN sNotReady (fun _ => (7, 5, 5)) 16).g_sample_set.channel_queues (3 : Fin 16)
      = Queue_Enqueue (sNotReady.g_sample_set.channel_queues (3 : Fin 16))
          ((7 % UINT16_MOD) &&& 0x0FFF) ∧
    (stepsN sNotReady (fun _ => (7, 5, 5)) 16).g_sample_set.timestamp
      = elapsed32 sNotReady.g_start_time 5 ∧
    (stepsN sNotReady (fun _ => (7, 5, 5)) 16).current_channel = 0 := by
  have h := C3_round_robin sNotReady (fun _ => (7, 5, 5)) rfl rfl
    (fun _ _ => show elapsed32 sNotReady.g_start_time 5 < 60000 by decide)
  exact ⟨h.1 3, h.2.2.1, h.2.2.2⟩

/-- C4: monotonic completion — once `ADS7953_IsSamplingComplete` returns
true the completion flag is set, and from any state with the flag set every
later `ADS7953_IsSamplingComplete` returns true without changing the state
and every `ADS7953_ProcessSamples` is a no-op (the whole driver state, in
particular every queue, every average and the timestamp, is unchanged). -/
theorem C4_monotonic_completion (s : DriverState) (now : Nat)
    (h : (ADS7953_IsSamplingComplete s now).2 = true) :
    ((ADS7953_IsSamplingComplete s now).1).g_sampling_complete = true ∧
    ∀ (s' : DriverState), s'.g_sampling_complete = true →
      ∀ (later r t1 t2 : Nat),
        (ADS7953_IsSamplingComplete s' later).2 = true ∧
        (ADS7953_IsSamplingComplete s' later).1 = s' ∧
        ADS7953_ProcessSamples s' r t1 t2 = s' := by
  constructor
  · by_cases hflag : s.g_sampling_complete = true
    · unfold ADS7953_IsSamplingComplete
      rw [if_pos hflag]
      exact hflag
    · unfold ADS7953_IsSamplingComplete at h ⊢
      rw [if_neg hflag] at h ⊢
      by_cases hd : 60000 ≤ elapsed32 s.g_start_time now
      · rw [if_pos hd]
      · rw [if_neg hd] at h
        simp at h
  · intro s' h' later r t1 t2
    refine ⟨?_, ?_, ProcessSamples_of_complete s' r t1 t2 h'⟩
    · rw [IsSamplingComplete_of_complete s' later h']
    · rw [IsSamplingComplete_of_complete s' later h']

/-- C4 witness: the monotonic-completion theorem at a completed state. -/
theorem C4_monotonic_completion_witness :
    ((ADS7953_IsSamplingComplete sReady 0).1).g_sampling_complete = true ∧
    (ADS7953_IsSamplingComplete sReady 123).2 = true ∧
    (ADS7953_IsSamplingComplete sReady 123).1 = sReady ∧
    ADS7953_ProcessSamples sReady 7 8 9 = sReady := by
  obtain ⟨h1, h2⟩ := C4_monotonic_completion sReady 0 rfl
  have h3 := h2 sReady rfl 123 7 8 9
  exact ⟨h1, h3.1, h3.2.1, h3.2.2⟩

/-- C5: deadline — after `ADS7953_StartSampling` records session start at
clock 0, polling `ADS7953_IsSamplingComplete` at clock 59999 returns false,
and polling (the resulting state) at clock 60000 or any later `uint32_t`
time returns true. -/
theorem C5_deadline (s : DriverState) (t : Nat)
    (h60 : 60000 ≤ t) (hlt : t < UINT32_MOD) :
    (ADS7953_IsSamplingComplete (ADS7953_StartSampling s 0) 59999).2 = false ∧
    (ADS7953_IsSamplingComplete
       ((ADS7953_IsSamplingComplete (ADS7953_StartSampling s 0) 59999).1) t).2
      = true := by
  have hflag : (ADS7953_StartSampling s 0).g_sampling_complete = false := rfl
  have hstart : (ADS7953_StartSampling s 0).g_start_time = 0 := rfl
  have hpoll1 : ADS7953_IsSamplingComplete (ADS7953_StartSampling s 0) 59999
      = (ADS7953_StartSampling s 0, false) := by
    unfold ADS7953_IsSamplingComplete
    rw [if_neg (by rw [hflag]; simp), if_neg ?_]
    rw [hstart]
    show ¬ 60000 ≤ (59999 % UINT32_MOD + UINT32_MOD - 0 % UINT32_MOD) % UINT32_MOD
    norm_num [UINT32_MOD]
  refine ⟨by rw [hpoll1], ?_⟩
  rw [hpoll1]
  unfold ADS7953_IsSamplingComplete
  rw [if_neg (by rw [hflag]; simp), if_pos ?_]
  rw [hstart]
  show 60000 ≤ (t % UINT32_MOD + UINT32_MOD - 0 % UINT32_MOD) % UINT32_MOD
  rw [Nat.mod_eq_of_lt hlt]
  have h2 : t + UINT32_MOD - 0 % UINT32_MOD = t + UINT32_MOD := by
    norm_num
  rw [h2]
  rw [Nat.add_mod_right, Nat.mod_eq_of_lt hlt]
  exact h60

/-- C5 witness: the deadline theorem at exactly t = 60000. -/
theorem C5_deadline_witness :
    (ADS7953_IsSamplingComplete (ADS7953_StartSampling sMid 0) 59999).2 = false ∧
    (ADS7953_IsSamplingComplete
       ((ADS7953_IsSamplingComplete (ADS7953_StartSampling sMid 0) 59999).1)
       60000).2 = true :=
  C5_deadline sMid 60000 (by norm_num) (by norm_num [UINT32_MOD])

/-- C6: FIFO eviction order — enqueuing `capacity + k` (k ≥ 1) `uint16_t`
values into a freshly initialized queue leaves exactly the last 4 values,
in insertion order, and `Queue_Average` is their truncated integer mean. -/
theorem C6_fifo_last_four (q : Queue) (vs : List Nat)
    (h5 : 5 ≤ vs.length) (hv : ∀ v ∈ vs, v < UINT16_MOD) :
    queueToList (enqueueAll (Queue_Init q) vs) = vs.drop (vs.length - 4) ∧
    Queue_Average (enqueueAll (Queue_Init q) vs)
      = (vs.drop (vs.length - 4)).sum / 4 := by
  obtain ⟨hwf, hlist⟩ := enqueueAll_WF_toList vs (Queue_Init q) (Queue_Init_WF q)
  rw [Queue_Init_toList, foldl_modelStep vs [] (by simp)] at hlist
  have hmap : vs.map (· % UINT16_MOD) = vs := by
    have h1 : vs.map (· % UINT16_MOD) = vs.map id :=
      List.map_congr_left (fun v hv' => Nat.mod_eq_of_lt (hv v hv'))
    rw [h1, List.map_id]
  rw [hmap] at hlist
  simp only [List.nil_append, List.length_nil, Nat.zero_add] at hlist
  have hlen : (queueToList (enqueueAll (Queue_Init q) vs)).length = 4 := by
    rw [hlist, List.length_drop]
    omega
  have hsize : (enqueueAll (Queue_Init q) vs).size.toNat = 4 := by
    rw [← queueToList_length, hlen]
  have hnz : (enqueueAll (Queue_Init q) vs).size ≠ 0 := by
    intro hz
    rw [hz] at hsize
    simp at hsize
  refine ⟨hlist, ?_⟩
  rw [Queue_Average_eq _ hwf, if_neg hnz, hsize, hlist]

/-- C6 witness: enqueuing [10,20,30,40,50] leaves [20,30,40,50] with
average (20+30+40+50)/4 = 35. -/
theorem C6_fifo_last_four_witness :
    queueToList (enqueueAll (Queue_Init zeroQueue) [10, 20, 30, 40, 50])
      = [20, 30, 40, 50] ∧
    Queue_Average (enqueueAll (Queue_Init zeroQueue) [10, 20, 30, 40, 50]) = 35 := by
  have h := C6_fifo_last_four zeroQueue [10, 20, 30, 40, 50] (by norm_num) (by decide)
  exact ⟨by rw [h.1]; decide, by rw [h.2]; decide⟩

/-- C7: `Queue_Average` returns 0 on an empty queue (zero policy); on a
non-empty well-formed queue the `uint32_t` accumulator loop computes the
exact sum of the held elements (no wraparound, since 4 × 65535 < 2^32) and
the result is that sum divided by the element count with truncating
division. -/
theorem C7_average_policy (q : Queue) (h : QueueWF q) :
    (q.size = 0 → Queue_Average q = 0) ∧
    (q.size ≠ 0 →
       avgSum q q.size.toNat = (queueToList q).sum ∧
       Queue_Average q = (queueToList q).sum / q.size.toNat) := by
  constructor
  · intro hz
    simp [Queue_Average, hz]
  · intro hnz
    have h1 := avgSum_eq q h q.size.toNat le_rfl
    have hlen : q.size.toNat = (queueToList q).length := (queueToList_length q).symm
    rw [hlen, List.take_length] at h1
    refine ⟨by rw [hlen]; exact h1.1, ?_⟩
    rw [Queue_Average_eq _ h, if_neg hnz]

/-- C7 witness: the average theorem at an empty queue and at a queue
holding [10, 20, 30]. -/
theorem C7_average_policy_witness :
    Queue_Average (Queue_Init zeroQueue) = 0 ∧
    Queue_Average (enqueueAll (Queue_Init zeroQueue) [10, 20, 30]) = 20 := by
  constructor
  · exact (C7_average_policy _ (Queue_Init_WF zeroQueue)).1 rfl
  · have hwf := (enqueueAll_WF_toList [10, 20, 30] (Queue_Init zeroQueue)
      (Queue_Init_WF zeroQueue)).1
    have h := (C7_average_policy _ hwf).2 (by decide)
    rw [h.2]
    decide

/-- C8: bounded size invariant — from an initialized queue, after any
prefix of any sequence of `Queue_Enqueue` calls the size never exceeds
`QUEUE_SIZE` = 4 (and never goes negative). -/
theorem C8_size_bounded (q : Queue) (vs : List Nat) (n : Nat) :
    (enqueueAll (Queue_Init q) (vs.take n)).size ≤ ((QUEUE_SIZE : Nat) : Int) ∧
    0 ≤ (enqueueAll (Queue_Init q) (vs.take n)).size := by
  have hwf := (enqueueAll_WF_toList (vs.take n) (Queue_Init q) (Queue_Init_WF q)).1
  exact ⟨hwf.size_ub, hwf.size_lb⟩

/-- C9: masking — for every 16-bit transfer result, a process step stores
only the low 12 bits (`result & 0x0FFF`, always < 4096) into the active
channel's queue. -/
theorem C9_low_12_bits (s : DriverState) (r t1 t2 : Nat)
    (hc : s.g_sampling_complete = false) (hr : r < UINT16_MOD) :
    (ADS7953_ProcessSamples s r t1 t2).g_sample_set.channel_queues
        (chIdx s.current_channel)
      = Queue_Enqueue
          (s.g_sample_set.channel_queues (chIdx s.current_channel))
          (r &&& 0x0FFF) ∧
    r &&& 0x0FFF < 4096 := by
  refine ⟨?_, lt_of_le_of_lt Nat.and_le_right (by norm_num)⟩
  rw [ProcessSamples_eq s r t1 t2 hc]
  split <;>
  · show (if chIdx s.current_channel = chIdx s.current_channel
          then Queue_Enqueue
                 (s.g_sample_set.channel_queues (chIdx s.current_channel))
                 ((r % UINT16_MOD) &&& 0x0FFF)
          else s.g_sample_set.channel_queues (chIdx s.current_channel)) = _
    rw [if_pos rfl, Nat.mod_eq_of_lt hr]

/-- C9 witness: a raw transfer result of 0xF123 is recorded as 0x0123. -/
theorem C9_low_12_bits_witness :
    (ADS7953_ProcessSamples sNotReady 0xF123 0 0).g_sample_set.channel_queues
        (chIdx 0)
      = Queue_Enqueue (sNotReady.g_sample_set.channel_queues (chIdx 0)) 0x0123 ∧
    queueToList ((ADS7953_ProcessSamples sNotReady 0xF123 0 0).g_sample_set.channel_queues
        (chIdx 0)) = [0x0123] := by
  have h := C9_low_12_bits sNotReady 0xF123 0 0 rfl (by norm_num [UINT16_MOD])
  have h123 : (0xF123 &&& 0x0FFF : Nat) = 0x0123 := by decide
  constructor
  · rw [← h123]
    exact h.1
  · rw [show chIdx 0 = chIdx sNotReady.current_channel from rfl, h.1, h123]
    decide

/-- C10: frame — `ADS7953_GetResults` never modifies the driver state (all
queues, averages, timestamp, flag and start time are unchanged), and when
the completion flag is false it also leaves the caller's destination
entirely unchanged. -/
theorem C10_get_results_frame (s : DriverState) (d : ADS7953_SampleSet) :
    (ADS7953_GetResults s d).1 = s ∧
    (s.g_sampling_complete = false → (ADS7953_GetResults s d).2 = d) := by
  constructor
  · unfold ADS7953_GetResults
    split <;> rfl
  · intro h
    simp [ADS7953_GetResults, h]

/-- C10 witness: the frame theorem at a concrete not-ready state. -/
theorem C10_get_results_frame_witness :
    (ADS7953_GetResults sNotReady demoSet).1 = sNotReady ∧
    (ADS7953_GetResults sNotReady demoSet).2 = demoSet := by
  have h := C10_get_results_frame sNotReady demoSet
  exact ⟨h.1, h.2 rfl⟩
